import Mathlib

/-!
Verification development for the GitHeatmap commit-aggregation engine
(src/src/services/repositoryService.ts, the current version of that file).

The TypeScript source is shallowly embedded below.  Conventions:

* A JavaScript Date value is its timestamp: an integer count of milliseconds
  since the Unix epoch (Int).  Calendar conversions (toISOString, day
  arithmetic) follow the ECMAScript specification, that is the proleptic
  Gregorian calendar over UTC; the civil-calendar functions below implement
  it with the standard era-based algorithm, and their correctness is proved
  (round trip with daysFromCivil) rather than assumed.
* The host time zone is modelled as a fixed UTC offset with no DST jumps, so
  the source pattern d.setDate(d.getDate() + n) is exactly adding
  n * 86400000 milliseconds.
* External effects are explicit inputs: child-process invocations are a
  function from (working directory, command line) to Except ExecError stdout
  carried in RepoEnv / DiscoverEnv, the workspace listing is an
  Option (List String) (undefined versus an array of roots), and the clock
  reads of Date.now() / new Date() are Int parameters.
* JavaScript string primitives used by the source (trim, split on a one
  character separator, join, JSON.stringify escaping, Buffer base64, UTF-8
  encoding, localeCompare ordering on ASCII strings as code-point order) are
  implemented structurally on List Char so that every definition evaluates
  inside the kernel.
* Division and modulus on Int are the Euclidean operations of Mathlib, which
  agree with the floor-based operations of ECMAScript for positive divisors.
-/

namespace GitHeatmap

def numF (doe : Nat) : Nat := doe - doe / 1460 + doe / 36524 - doe / 146096

def yearStart (y : Nat) : Nat := 365 * y + y / 4 - y / 100

-- step lemma, restricted to the era
theorem numF_step (x : Nat) (h : x < 146096) : numF x ≤ numF (x + 1) := by
  unfold numF
  omega

theorem numF_mono {x y : Nat} (hxy : x ≤ y) (h : y ≤ 146096) : numF x ≤ numF y := by
  induction y with
  | zero => simpa [Nat.le_zero.mp hxy]
  | succ n ih =>
    rcases Nat.lt_or_ge x (n + 1) with hlt | hge
    · exact (ih (by omega) (by omega)).trans (numF_step n (by omega))
    · have : x = n + 1 := by omega
      simp [this]

def checkYear (y : Nat) : Bool :=
  Nat.beq (numF (yearStart y)) (365 * y)
    && (Nat.ble y 0 || Nat.ble (numF (yearStart y - 1) + 1) (365 * y))

set_option maxRecDepth 4000 in
theorem checkYear_all : ∀ y, y < 400 → checkYear y = true := by decide


theorem checkYear_start {y : Nat} (h : y < 400) : numF (yearStart y) = 365 * y := by
  have := checkYear_all y h
  unfold checkYear at this
  simp only [Bool.and_eq_true, Bool.or_eq_true] at this
  exact Nat.eq_of_beq_eq_true this.1

theorem checkYear_pre {y : Nat} (h : y < 400) (h1 : 1 ≤ y) :
    numF (yearStart y - 1) + 1 ≤ 365 * y := by
  have := checkYear_all y h
  unfold checkYear at this
  simp only [Bool.and_eq_true, Bool.or_eq_true] at this
  rcases this.2 with h2 | h2
  · exact absurd (Nat.le_of_ble_eq_true h2) (by omega)
  · exact Nat.le_of_ble_eq_true h2

-- bracketing
theorem bracket (doe : Nat) (h : doe < 146097) :
    yearStart (numF doe / 365) ≤ doe ∧
      (numF doe / 365 ≤ 398 → doe < yearStart (numF doe / 365 + 1)) ∧
      numF doe / 365 ≤ 399 := by
  set y := numF doe / 365 with hy
  have hynum : 365 * y ≤ numF doe := by rw [hy]; omega
  have htop : numF doe ≤ 145999 := by
    have := numF_mono (show doe ≤ 146096 by omega) (by omega)
    simpa using this.trans_eq (by decide)
  have hy399 : y ≤ 399 := by omega
  have hsmono : ∀ a b : Nat, a ≤ b → yearStart a ≤ yearStart b := by
    have hstep : Monotone yearStart := by
      apply monotone_nat_of_le_succ
      intro n; unfold yearStart; omega
    exact fun a b hab => hstep hab
  refine ⟨?_, ?_, hy399⟩
  · by_contra hlt
    push_neg at hlt
    rcases Nat.eq_zero_or_pos y with h0 | hpos
    · rw [h0] at hlt; simp [yearStart] at hlt
    · have hs400 : yearStart y ≤ yearStart 399 := hsmono _ _ (by omega)
      have hs399 : yearStart 399 = 145731 := by decide
      have hmono := numF_mono (show doe ≤ yearStart y - 1 by omega) (by omega)
      have := checkYear_pre (y := y) (by omega) hpos
      omega
  · intro hy398
    by_contra hge2
    push_neg at hge2
    have h1 := checkYear_start (y := y + 1) (by omega)
    have hs400 : yearStart (y + 1) ≤ yearStart 399 := hsmono _ _ (by omega)
    have hs399 : yearStart 399 = 145731 := by decide
    have hmono := numF_mono hge2 (by omega)
    have : 365 * (y + 1) ≤ numF doe := h1 ▸ hmono
    omega

-- the final-year case: y = 399 gives doe < 146097 directly, fine.


def yoeOf (doe : Nat) : Nat := numF doe / 365
def doyOf (doe : Nat) : Nat := doe - yearStart (yoeOf doe)
def mpOf (doe : Nat) : Nat := (5 * doyOf doe + 2) / 153
def domOf (doe : Nat) : Nat := doyOf doe - (153 * mpOf doe + 2) / 5 + 1
def monthOf (doe : Nat) : Nat := if mpOf doe < 10 then mpOf doe + 3 else mpOf doe - 9

theorem doy_le (doe : Nat) (h : doe < 146097) : doyOf doe ≤ 365 := by
  obtain ⟨hb1, hb2, hb3⟩ := bracket doe h
  unfold doyOf yoeOf
  rcases Nat.lt_or_ge (numF doe / 365) 399 with hy | hy
  · have h2 := hb2 (by omega)
    unfold yearStart at h2 hb1 ⊢
    omega
  · have h399 : numF doe / 365 = 399 := by omega
    rw [h399] at hb1 ⊢
    have : yearStart 399 = 145731 := by decide
    omega

theorem q_le (doe : Nat) : (153 * mpOf doe + 2) / 5 ≤ doyOf doe := by
  unfold mpOf
  omega

theorem mp_le (doe : Nat) (h : doe < 146097) : mpOf doe ≤ 11 := by
  have := doy_le doe h
  unfold mpOf
  omega

theorem month_range (doe : Nat) (h : doe < 146097) :
    1 ≤ monthOf doe ∧ monthOf doe ≤ 12 := by
  have := mp_le doe h
  unfold monthOf
  split <;> omega

theorem dom_range (doe : Nat) (h : doe < 146097) :
    1 ≤ domOf doe ∧ domOf doe ≤ 31 := by
  have hq := q_le doe
  have hmp := mp_le doe h
  have hdoy := doy_le doe h
  unfold domOf
  unfold mpOf at *
  omega

theorem flag_eq (doe : Nat) (h : doe < 146097) :
    (if monthOf doe ≤ 2 then 1 else 0) = (if 10 ≤ mpOf doe then 1 else 0) := by
  have := mp_le doe h
  unfold monthOf
  split <;> split <;> split at * <;> omega

theorem mp_back (doe : Nat) (h : doe < 146097) :
    (if 2 < monthOf doe then monthOf doe - 3 else monthOf doe + 9) = mpOf doe := by
  have := mp_le doe h
  unfold monthOf
  split <;> split at * <;> omega

theorem yoe_le (doe : Nat) (h : doe < 146097) : yoeOf doe ≤ 399 := by
  obtain ⟨_, _, hb3⟩ := bracket doe h
  exact hb3

theorem doe_roundtrip (doe : Nat) (h : doe < 146097) :
    365 * yoeOf doe + yoeOf doe / 4 - yoeOf doe / 100
      + (153 * mpOf doe + 2) / 5 + domOf doe - 1 = doe := by
  obtain ⟨hb1, _, _⟩ := bracket doe h
  have hq := q_le doe
  unfold domOf
  unfold yoeOf at *
  unfold doyOf mpOf at *
  unfold yoeOf at *
  unfold yearStart at *
  omega

theorem top_case (doe : Nat) (h : doe < 146097) (h399 : yoeOf doe = 399)
    (hmp : 10 ≤ mpOf doe) : 146037 ≤ doe := by
  obtain ⟨hb1, _, _⟩ := bracket doe h
  unfold mpOf at hmp
  unfold doyOf at hmp
  unfold yoeOf at *
  rw [h399] at hb1 hmp
  have : yearStart 399 = 145731 := by decide
  omega

def civilFromDays (day : Int) : Int × Int × Int :=
  let doe := ((day + 719468) % 146097).toNat
  (((day + 719468) / 146097) * 400 + (yoeOf doe + (if monthOf doe ≤ 2 then 1 else 0) : Nat),
    (monthOf doe : Int), (domOf doe : Int))

def daysFromCivil (y m d : Int) : Int :=
  let y2 := y - (if m ≤ 2 then 1 else 0)
  let era := y2 / 400
  let yoe := y2 - era * 400
  let mp := if 2 < m then m - 3 else m + 9
  era * 146097 + 365 * yoe + yoe / 4 - yoe / 100
    + (153 * mp + 2) / 5 + d - 1 - 719468

theorem civil_roundtrip (day : Int) :
    daysFromCivil (civilFromDays day).1 (civilFromDays day).2.1 (civilFromDays day).2.2
      = day := by
  have hz : 0 ≤ (day + 719468) % 146097 ∧ (day + 719468) % 146097 < 146097 ∧
      day + 719468 = 146097 * ((day + 719468) / 146097) + (day + 719468) % 146097 := by
    omega
  set n := ((day + 719468) % 146097).toNat with hn
  set era := (day + 719468) / 146097 with hera
  have hn146 : n < 146097 := by omega
  have hcast : (n : Int) = (day + 719468) % 146097 := by omega
  have hback := mp_back n hn146
  have hmr := month_range n hn146
  have hdr := dom_range n hn146
  have hyoe := yoe_le n hn146
  have hrt := doe_roundtrip n hn146
  have hq := q_le n
  simp only [civilFromDays, daysFromCivil, ← hn, ← hera]
  have hifm : ((monthOf n : Int) ≤ 2) ↔ (monthOf n ≤ 2) := by exact_mod_cast Iff.rfl
  by_cases hm2 : monthOf n ≤ 2
  · rw [if_pos hm2, if_pos (hifm.mpr hm2)]
    by_cases hm3 : 2 < (monthOf n : Int)
    · exact absurd (by exact_mod_cast hm3) (by omega)
    · rw [if_neg hm3]
      have hmpv : monthOf n + 9 = mpOf n := by
        rw [← hback, if_neg (by omega)]
      push_cast
      have e1 : era * 400 + ((yoeOf n : Int) + 1) - 1 = 400 * era + (yoeOf n : Int) := by
        ring
      rw [e1]
      have e2 : (400 * era + (yoeOf n : Int)) / 400 = era := by omega
      rw [e2]
      have e3 : 400 * era + (yoeOf n : Int) - era * 400 = (yoeOf n : Int) := by ring
      rw [e3]
      have e5 : (monthOf n : Int) + 9 = (mpOf n : Int) := by omega
      rw [e5]
      have e6 : (153 * (mpOf n : Int) + 2) / 5 = (((153 * mpOf n + 2) / 5 : Nat) : Int) := by
        omega
      rw [e6]
      omega
  · rw [if_neg hm2, if_neg (fun hc => hm2 (hifm.mp hc))]
    by_cases hm3 : 2 < (monthOf n : Int)
    · rw [if_pos hm3]
      have hmpv : monthOf n - 3 = mpOf n := by
        rw [← hback, if_pos (by omega)]
      push_cast
      have e1 : era * 400 + ((yoeOf n : Int) + 0) - 0 = 400 * era + (yoeOf n : Int) := by
        ring
      rw [e1]
      have e2 : (400 * era + (yoeOf n : Int)) / 400 = era := by omega
      rw [e2]
      have e3 : 400 * era + (yoeOf n : Int) - era * 400 = (yoeOf n : Int) := by ring
      rw [e3]
      have e5 : (monthOf n : Int) - 3 = (mpOf n : Int) := by omega
      rw [e5]
      have e6 : (153 * (mpOf n : Int) + 2) / 5 = (((153 * mpOf n + 2) / 5 : Nat) : Int) := by
        omega
      rw [e6]
      omega
    · exact absurd (by exact_mod_cast (show 2 < monthOf n by omega)) hm3

theorem civilFromDays_bounds (day : Int) (h0 : 0 ≤ day) (h1 : day ≤ 2932896) :
    0 ≤ (civilFromDays day).1 ∧ (civilFromDays day).1 ≤ 9999 ∧
    1 ≤ (civilFromDays day).2.1 ∧ (civilFromDays day).2.1 ≤ 12 ∧
    1 ≤ (civilFromDays day).2.2 ∧ (civilFromDays day).2.2 ≤ 31 := by
  have hz : 0 ≤ (day + 719468) % 146097 ∧ (day + 719468) % 146097 < 146097 ∧
      day + 719468 = 146097 * ((day + 719468) / 146097) + (day + 719468) % 146097 := by
    omega
  set n := ((day + 719468) % 146097).toNat with hn
  set era := (day + 719468) / 146097 with hera
  have hn146 : n < 146097 := by omega
  have hcast : (n : Int) = (day + 719468) % 146097 := by omega
  have hmr := month_range n hn146
  have hdr := dom_range n hn146
  have hyoe := yoe_le n hn146
  have hflag := flag_eq n hn146
  have htop := top_case n hn146
  have hera424 : 4 ≤ era ∧ era ≤ 24 := by omega
  simp only [civilFromDays, ← hn, ← hera]
  refine ⟨?_, ?_, by exact_mod_cast hmr.1, by exact_mod_cast hmr.2,
    by exact_mod_cast hdr.1, by exact_mod_cast hdr.2⟩
  · have : (0 : Int) ≤ (yoeOf n + (if monthOf n ≤ 2 then 1 else 0) : Nat) := by positivity
    omega
  · rcases Nat.lt_or_ge era.toNat 24 with h24 | h24
    · have hyE : (yoeOf n + (if monthOf n ≤ 2 then 1 else 0) : Nat) ≤ 400 := by
        split <;> omega
      have : era ≤ 23 := by omega
      have hcastyE : ((yoeOf n + (if monthOf n ≤ 2 then 1 else 0) : Nat) : Int) ≤ 400 := by
        exact_mod_cast hyE
      omega
    · have hera24 : era = 24 := by omega
      have hnsmall : n ≤ 146036 := by omega
      have hyE : (yoeOf n + (if monthOf n ≤ 2 then 1 else 0) : Nat) ≤ 399 := by
        by_cases hm2 : monthOf n ≤ 2
        · simp only [if_pos hm2]
          rw [if_pos hm2] at hflag
          have h10 : 10 ≤ mpOf n := by
            by_cases hc : 10 ≤ mpOf n
            · exact hc
            · rw [if_neg hc] at hflag; omega
          have h399 : yoeOf n ≤ 398 := by
            by_contra hgt
            push_neg at hgt
            have h399e : yoeOf n = 399 := by omega
            have := htop h399e h10
            omega
          omega
        · simp only [if_neg hm2]
          omega
      have hcastyE : ((yoeOf n + (if monthOf n ≤ 2 then 1 else 0) : Nat) : Int) ≤ 399 := by
        exact_mod_cast hyE
      omega

def padNat : Nat → Nat → List Char
  | 0, _ => []
  | w + 1, n => padNat w (n / 10) ++ [Nat.digitChar (n % 10)]

theorem padNat_length (w n : Nat) : (padNat w n).length = w := by
  induction w generalizing n with
  | zero => rfl
  | succ w ih => simp [padNat, ih]

theorem digitChar_inj (a b : Nat) (ha : a < 10) (hb : b < 10)
    (h : Nat.digitChar a = Nat.digitChar b) : a = b := by
  interval_cases a <;> interval_cases b <;> revert h <;> decide

theorem padNat_inj (w a b : Nat) (ha : a < 10 ^ w) (hb : b < 10 ^ w)
    (h : padNat w a = padNat w b) : a = b := by
  induction w generalizing a b with
  | zero => omega
  | succ w ih =>
    simp only [padNat] at h
    have hlen : (padNat w (a / 10)).length = (padNat w (b / 10)).length := by
      simp [padNat_length]
    obtain ⟨h1, h2⟩ := List.append_inj h (by simp [padNat_length])
    have hd : a % 10 = b % 10 :=
      digitChar_inj _ _ (by omega) (by omega) (by simpa using h2)
    have hp : 10 ^ (w + 1) = 10 ^ w * 10 := pow_succ 10 w
    have hq : a / 10 = b / 10 := ih (a / 10) (b / 10) (by omega) (by omega) h1
    omega

def toISOString (t : Int) : String :=
  let day := t / 86400000
  let ms := (t % 86400000).toNat
  let c := civilFromDays day
  ⟨padNat 4 c.1.toNat ++ ('-' :: (padNat 2 c.2.1.toNat ++ ('-' :: (padNat 2 c.2.2.toNat
    ++ ('T' :: (padNat 2 (ms / 3600000) ++ (':' :: (padNat 2 (ms / 60000 % 60)
    ++ (':' :: (padNat 2 (ms / 1000 % 60) ++ ('.' :: (padNat 3 (ms % 1000)
    ++ ['Z']))))))))))))⟩


theorem toISOString_inj (t1 t2 : Int)
    (h1 : 0 ≤ t1) (h2 : t1 < 253402300800000)
    (h3 : 0 ≤ t2) (h4 : t2 < 253402300800000)
    (heq : toISOString t1 = toISOString t2) : t1 = t2 := by
  have hday1 : 0 ≤ t1 / 86400000 ∧ t1 / 86400000 ≤ 2932896 := by omega
  have hday2 : 0 ≤ t2 / 86400000 ∧ t2 / 86400000 ≤ 2932896 := by omega
  obtain ⟨hy1a, hy1b, hm1a, hm1b, hd1a, hd1b⟩ :=
    civilFromDays_bounds (t1 / 86400000) hday1.1 hday1.2
  obtain ⟨hy2a, hy2b, hm2a, hm2b, hd2a, hd2b⟩ :=
    civilFromDays_bounds (t2 / 86400000) hday2.1 hday2.2
  have hms1 : (t1 % 86400000).toNat < 86400000 := by omega
  have hms2 : (t2 % 86400000).toNat < 86400000 := by omega
  simp only [toISOString] at heq
  replace heq := congrArg String.data heq
  dsimp only at heq
  obtain ⟨e1, heq⟩ := List.append_inj heq (by simp [padNat_length])
  obtain ⟨e2, heq⟩ := List.append_inj (List.cons_injective heq) (by simp [padNat_length])
  obtain ⟨e3, heq⟩ := List.append_inj (List.cons_injective heq) (by simp [padNat_length])
  obtain ⟨e4, heq⟩ := List.append_inj (List.cons_injective heq) (by simp [padNat_length])
  obtain ⟨e5, heq⟩ := List.append_inj (List.cons_injective heq) (by simp [padNat_length])
  obtain ⟨e6, heq⟩ := List.append_inj (List.cons_injective heq) (by simp [padNat_length])
  obtain ⟨e7, _⟩ := List.append_inj (List.cons_injective heq) (by simp [padNat_length])
  have hy : (civilFromDays (t1 / 86400000)).1 = (civilFromDays (t2 / 86400000)).1 := by
    have := padNat_inj 4 _ _ (by omega) (by omega) e1
    omega
  have hm : (civilFromDays (t1 / 86400000)).2.1 = (civilFromDays (t2 / 86400000)).2.1 := by
    have := padNat_inj 2 _ _ (by omega) (by omega) e2
    omega
  have hd : (civilFromDays (t1 / 86400000)).2.2 = (civilFromDays (t2 / 86400000)).2.2 := by
    have := padNat_inj 2 _ _ (by omega) (by omega) e3
    omega
  have hdayeq : t1 / 86400000 = t2 / 86400000 := by
    have hr1 := civil_roundtrip (t1 / 86400000)
    have hr2 := civil_roundtrip (t2 / 86400000)
    rw [hy, hm, hd] at hr1
    omega
  have hh : (t1 % 86400000).toNat / 3600000 = (t2 % 86400000).toNat / 3600000 :=
    padNat_inj 2 _ _ (by omega) (by omega) e4
  have hmi : (t1 % 86400000).toNat / 60000 % 60 = (t2 % 86400000).toNat / 60000 % 60 :=
    padNat_inj 2 _ _ (by omega) (by omega) e5
  have hs : (t1 % 86400000).toNat / 1000 % 60 = (t2 % 86400000).toNat / 1000 % 60 :=
    padNat_inj 2 _ _ (by omega) (by omega) e6
  have hmsr : (t1 % 86400000).toNat % 1000 = (t2 % 86400000).toNat % 1000 :=
    padNat_inj 3 _ _ (by omega) (by omega) e7
  omega

def hexDigitVal (c : Char) : Option Nat :=
  if 48 ≤ c.toNat ∧ c.toNat ≤ 57 then some (c.toNat - 48)
  else if 97 ≤ c.toNat ∧ c.toNat ≤ 102 then some (c.toNat - 87)
  else none

def escChar (c : Char) : List Char :=
  if c = '"' then ['\\', '"']
  else if c = '\\' then ['\\', '\\']
  else if c = '\x08' then ['\\', 'b']
  else if c = '\x09' then ['\\', 't']
  else if c = '\x0a' then ['\\', 'n']
  else if c = '\x0c' then ['\\', 'f']
  else if c = '\x0d' then ['\\', 'r']
  else if c.toNat < 32 then
    ['\\', 'u', '0', '0', Nat.digitChar (c.toNat / 16), Nat.digitChar (c.toNat % 16)]
  else [c]

def escStr (s : List Char) : List Char := (s.map escChar).join

def escSingle (e : Char) : Option Char :=
  if e = '"' then some '"'
  else if e = '\\' then some '\\'
  else if e = 'b' then some '\x08'
  else if e = 't' then some '\x09'
  else if e = 'n' then some '\x0a'
  else if e = 'f' then some '\x0c'
  else if e = 'r' then some '\x0d'
  else none

def decodeEsc : List Char → Option (List Char × List Char)
  | [] => none
  | c :: rest =>
    if c = '"' then some ([], rest)
    else if c = '\\' then
      match rest with
      | [] => none
      | e :: rest2 =>
        if e = 'u' then
          match rest2 with
          | h1 :: h2 :: h3 :: h4 :: rest3 => do
              let v1 ← hexDigitVal h1
              let v2 ← hexDigitVal h2
              let v3 ← hexDigitVal h3
              let v4 ← hexDigitVal h4
              let p ← decodeEsc rest3
              pure (Char.ofNat (4096 * v1 + 256 * v2 + 16 * v3 + v4) :: p.1, p.2)
          | _ => none
        else do
          let ch ← escSingle e
          let p ← decodeEsc rest2
          pure (ch :: p.1, p.2)
    else do
      let p ← decodeEsc rest
      pure (c :: p.1, p.2)

theorem decodeEsc_esc (s r : List Char) :
    decodeEsc (escStr s ++ '"' :: r) = some (s, r) := by
  induction s with
  | nil => rw [show escStr [] = [] from rfl, List.nil_append, decodeEsc.eq_def]; simp
  | cons c s ih =>
    have hstep : escStr (c :: s) = escChar c ++ escStr s := by
      simp [escStr]
    rw [hstep, List.append_assoc]
    by_cases h1 : c = '"'
    · subst h1; simp [escChar]; rw [decodeEsc.eq_def]; simp [escSingle, ih]
    · by_cases h2 : c = '\\'
      · subst h2; simp [escChar]; rw [decodeEsc.eq_def]; simp [escSingle, ih]
      · by_cases h3 : c = '\x08'
        · subst h3; simp [escChar]; rw [decodeEsc.eq_def]; simp [escSingle, ih]
        · by_cases h4 : c = '\x09'
          · subst h4; simp [escChar]; rw [decodeEsc.eq_def]; simp [escSingle, ih]
          · by_cases h5 : c = '\x0a'
            · subst h5; simp [escChar]; rw [decodeEsc.eq_def]; simp [escSingle, ih]
            · by_cases h6 : c = '\x0c'
              · subst h6; simp [escChar]; rw [decodeEsc.eq_def]; simp [escSingle, ih]
              · by_cases h7 : c = '\x0d'
                · subst h7; simp [escChar]; rw [decodeEsc.eq_def]; simp [escSingle, ih]
                · by_cases h8 : c.toNat < 32
                  · rw [escChar, if_neg h1, if_neg h2, if_neg h3, if_neg h4, if_neg h5,
                      if_neg h6, if_neg h7, if_pos h8]
                    have hv1 : hexDigitVal '0' = some 0 := by decide
                    have hv3 : hexDigitVal (Nat.digitChar (c.toNat / 16)) = some (c.toNat / 16) := by
                      have h16 : c.toNat / 16 < 2 := by omega
                      interval_cases h : (c.toNat / 16) <;> decide
                    have hv4 : hexDigitVal (Nat.digitChar (c.toNat % 16)) = some (c.toNat % 16) := by
                      have h16 : c.toNat % 16 < 16 := by omega
                      interval_cases h : (c.toNat % 16) <;> decide
                    simp only [List.cons_append, List.nil_append]
                    rw [decodeEsc.eq_def]
                    simp only [reduceIte, reduceCtorEq]
                    simp only [hv1, hv3, hv4, Option.bind_eq_bind, Option.some_bind, ih]
                    have hc : 4096 * 0 + 256 * 0 + 16 * (c.toNat / 16) + c.toNat % 16 = c.toNat := by
                      omega
                    rw [hc]
                    simp [Char.ofNat_toNat]
                  · rw [escChar, if_neg h1, if_neg h2, if_neg h3, if_neg h4, if_neg h5,
                      if_neg h6, if_neg h7, if_neg h8]
                    simp only [List.cons_append, List.nil_append]
                    rw [decodeEsc.eq_def]
                    simp only [if_neg h1, if_neg h2]
                    simp [ih]

theorem char_toNat_lt (c : Char) : c.toNat < 1114112 := by
  rcases c.valid with h | ⟨_, h2⟩
  · exact lt_trans h (by norm_num)
  · exact h2

def utf8Char (c : Char) : List Nat :=
  let n := c.toNat
  if n < 128 then [n]
  else if n < 2048 then [192 + n / 64, 128 + n % 64]
  else if n < 65536 then [224 + n / 4096, 128 + n / 64 % 64, 128 + n % 64]
  else [240 + n / 262144, 128 + n / 4096 % 64, 128 + n / 64 % 64, 128 + n % 64]

def utf8Bytes (s : List Char) : List Nat := (s.map utf8Char).join

def decodeUtf8Char : List Nat → Option (Nat × List Nat)
  | [] => none
  | b :: rest =>
    if b < 128 then some (b, rest)
    else if b < 192 then none
    else if b < 224 then
      match rest with
      | b2 :: rest2 =>
        if 128 ≤ b2 ∧ b2 < 192 then some ((b - 192) * 64 + (b2 - 128), rest2) else none
      | [] => none
    else if b < 240 then
      match rest with
      | b2 :: b3 :: rest2 =>
        if 128 ≤ b2 ∧ b2 < 192 ∧ 128 ≤ b3 ∧ b3 < 192 then
          some ((b - 224) * 4096 + (b2 - 128) * 64 + (b3 - 128), rest2)
        else none
      | _ => none
    else if b < 248 then
      match rest with
      | b2 :: b3 :: b4 :: rest2 =>
        if 128 ≤ b2 ∧ b2 < 192 ∧ 128 ≤ b3 ∧ b3 < 192 ∧ 128 ≤ b4 ∧ b4 < 192 then
          some ((b - 240) * 262144 + (b2 - 128) * 4096 + (b3 - 128) * 64 + (b4 - 128), rest2)
        else none
      | _ => none
    else none

theorem decodeUtf8Char_round (c : Char) (r : List Nat) :
    decodeUtf8Char (utf8Char c ++ r) = some (c.toNat, r) := by
  have hlt := char_toNat_lt c
  simp only [utf8Char]
  by_cases h1 : c.toNat < 128
  · rw [if_pos h1]
    simp only [List.cons_append, List.nil_append]
    rw [decodeUtf8Char.eq_def]
    dsimp only
    rw [if_pos h1]
  · rw [if_neg h1]
    by_cases h2 : c.toNat < 2048
    · rw [if_pos h2]
      simp only [List.cons_append, List.nil_append]
      rw [decodeUtf8Char.eq_def]
      dsimp only
      have e1 : ¬ (192 + c.toNat / 64 < 128) := by omega
      have e2 : ¬ (192 + c.toNat / 64 < 192) := by omega
      have e3 : 192 + c.toNat / 64 < 224 := by omega
      have e4 : 128 ≤ 128 + c.toNat % 64 ∧ 128 + c.toNat % 64 < 192 := by omega
      rw [if_neg e1, if_neg e2, if_pos e3, if_pos e4]
      simp only [Option.some.injEq, Prod.mk.injEq]
      exact ⟨by omega, trivial⟩
    · rw [if_neg h2]
      by_cases h3 : c.toNat < 65536
      · rw [if_pos h3]
        simp only [List.cons_append, List.nil_append]
        rw [decodeUtf8Char.eq_def]
        dsimp only
        have e1 : ¬ (224 + c.toNat / 4096 < 128) := by omega
        have e2 : ¬ (224 + c.toNat / 4096 < 192) := by omega
        have e3 : ¬ (224 + c.toNat / 4096 < 224) := by omega
        have e4 : 224 + c.toNat / 4096 < 240 := by omega
        have e5 : 128 ≤ 128 + c.toNat / 64 % 64 ∧ 128 + c.toNat / 64 % 64 < 192 ∧
            128 ≤ 128 + c.toNat % 64 ∧ 128 + c.toNat % 64 < 192 := by omega
        rw [if_neg e1, if_neg e2, if_neg e3, if_pos e4, if_pos e5]
        simp only [Option.some.injEq, Prod.mk.injEq]
        exact ⟨by omega, trivial⟩
      · rw [if_neg h3]
        simp only [List.cons_append, List.nil_append]
        rw [decodeUtf8Char.eq_def]
        dsimp only
        have e1 : ¬ (240 + c.toNat / 262144 < 128) := by omega
        have e2 : ¬ (240 + c.toNat / 262144 < 192) := by omega
        have e3 : ¬ (240 + c.toNat / 262144 < 224) := by omega
        have e4 : ¬ (240 + c.toNat / 262144 < 240) := by omega
        have e5 : 240 + c.toNat / 262144 < 248 := by omega
        have e6 : 128 ≤ 128 + c.toNat / 4096 % 64 ∧ 128 + c.toNat / 4096 % 64 < 192 ∧
            128 ≤ 128 + c.toNat / 64 % 64 ∧ 128 + c.toNat / 64 % 64 < 192 ∧
            128 ≤ 128 + c.toNat % 64 ∧ 128 + c.toNat % 64 < 192 := by omega
        rw [if_neg e1, if_neg e2, if_neg e3, if_neg e4, if_pos e5, if_pos e6]
        simp only [Option.some.injEq, Prod.mk.injEq]
        exact ⟨by omega, trivial⟩

theorem utf8Char_ne_nil (c : Char) : utf8Char c ≠ [] := by
  simp only [utf8Char]
  split
  · simp
  · split
    · simp
    · split <;> simp

theorem utf8Bytes_inj (a b : List Char) (h : utf8Bytes a = utf8Bytes b) : a = b := by
  induction a generalizing b with
  | nil =>
    cases b with
    | nil => rfl
    | cons c bs =>
      exfalso
      simp only [utf8Bytes, List.map_nil, List.join, List.map_cons, List.join_cons] at h
      exact utf8Char_ne_nil c (by
        rcases List.append_eq_nil.mp h.symm with ⟨h1, _⟩
        exact h1)
  | cons c as ih =>
    cases b with
    | nil =>
      exfalso
      simp only [utf8Bytes, List.map_nil, List.join, List.map_cons, List.join_cons] at h
      exact utf8Char_ne_nil c (by
        rcases List.append_eq_nil.mp h with ⟨h1, _⟩
        exact h1)
    | cons d bs =>
      have hj : utf8Char c ++ utf8Bytes as = utf8Char d ++ utf8Bytes bs := by
        simpa [utf8Bytes, List.join] using h
      have hda := decodeUtf8Char_round c (utf8Bytes as)
      have hdb := decodeUtf8Char_round d (utf8Bytes bs)
      rw [hj] at hda
      rw [hda] at hdb
      obtain ⟨hv, hr⟩ := Prod.mk.injEq .. ▸ (Option.some.injEq _ _ ▸ hdb)
      have hc : c = d := by
        have : Char.ofNat c.toNat = Char.ofNat d.toNat := by rw [hv]
        rwa [Char.ofNat_toNat, Char.ofNat_toNat] at this
      exact hc ▸ congrArg (c :: ·) (ih bs hr)

theorem utf8Bytes_lt (s : List Char) : ∀ x ∈ utf8Bytes s, x < 256 := by
  induction s with
  | nil => simp [utf8Bytes]
  | cons c cs ih =>
    intro x hx
    have hlt := char_toNat_lt c
    simp only [utf8Bytes, List.map_cons, List.join_cons, List.mem_append] at hx
    rcases hx with hx | hx
    · simp only [utf8Char] at hx
      split at hx
      · simp at hx; omega
      · split at hx
        · simp at hx; omega
        · split at hx
          · simp at hx; omega
          · simp at hx; omega
    · exact ih x hx

def b64Table : List Char :=
  "ABCDEFGHIJKLMNOPQRSTUVWXYZabcdefghijklmnopqrstuvwxyz0123456789+/".toList

def b64Char (n : Nat) : Char := b64Table.getD n '?'

def b64Val (c : Char) : Option Nat :=
  if 65 ≤ c.toNat ∧ c.toNat ≤ 90 then some (c.toNat - 65)
  else if 97 ≤ c.toNat ∧ c.toNat ≤ 122 then some (c.toNat - 71)
  else if 48 ≤ c.toNat ∧ c.toNat ≤ 57 then some (c.toNat + 4)
  else if c = '+' then some 62
  else if c = '/' then some 63
  else none

theorem b64Val_char : ∀ n, n < 64 → b64Val (b64Char n) = some n := by decide

theorem b64Char_ne_eq : ∀ n, n < 64 → b64Char n ≠ '=' := by decide

theorem b64Char_inj {m n : Nat} (hm : m < 64) (hn : n < 64)
    (h : b64Char m = b64Char n) : m = n := by
  have h1 := b64Val_char m hm
  have h2 := b64Val_char n hn
  rw [h] at h1
  rw [h1] at h2
  exact (Option.some.injEq _ _ ▸ h2)

def base64 : List Nat → List Char
  | b1 :: b2 :: b3 :: rest =>
    b64Char (b1 / 4) :: b64Char (b1 % 4 * 16 + b2 / 16) ::
      b64Char (b2 % 16 * 4 + b3 / 64) :: b64Char (b3 % 64) :: base64 rest
  | [b1, b2] => [b64Char (b1 / 4), b64Char (b1 % 4 * 16 + b2 / 16), b64Char (b2 % 16 * 4), '=']
  | [b1] => [b64Char (b1 / 4), b64Char (b1 % 4 * 16), '=', '=']
  | [] => []

theorem base64_inj (a : List Nat) : ∀ (b : List Nat),
    (∀ x ∈ a, x < 256) → (∀ x ∈ b, x < 256) → base64 a = base64 b → a = b := by
  induction a using base64.induct with
  | case1 x y z t ih =>
    intro b ha hb h
    have hx := ha x (by simp)
    have hy := ha y (by simp)
    have hz := ha z (by simp)
    match b with
    | [] => simp [base64] at h
    | [u] =>
      have hne := b64Char_ne_eq (y % 16 * 4 + z / 64) (by omega)
      simp [base64, hne, hne.symm] at h
    | [u, v] =>
      have hne := b64Char_ne_eq (z % 64) (by omega)
      simp [base64, hne, hne.symm] at h
    | u :: v :: w :: s =>
      simp only [base64, List.cons.injEq] at h
      obtain ⟨e1, e2, e3, e4, e5⟩ := h
      have hu := hb u (by simp)
      have hv := hb v (by simp)
      have hw := hb w (by simp)
      have q1 := b64Char_inj (by omega) (by omega) e1
      have q2 := b64Char_inj (by omega) (by omega) e2
      have q3 := b64Char_inj (by omega) (by omega) e3
      have q4 := b64Char_inj (by omega) (by omega) e4
      have ht := ih s (fun p hp => ha p (by simp [hp])) (fun p hp => hb p (by simp [hp])) e5
      have hxyz : x = u ∧ y = v ∧ z = w := ⟨by omega, by omega, by omega⟩
      simp [hxyz.1, hxyz.2.1, hxyz.2.2, ht]
  | case2 x y =>
    intro b ha hb h
    have hx := ha x (by simp)
    have hy := ha y (by simp)
    match b with
    | [] => simp [base64] at h
    | [u] =>
      have hne := b64Char_ne_eq (y % 16 * 4) (by omega)
      simp [base64, hne, hne.symm] at h
    | [u, v] =>
      simp only [base64, List.cons.injEq] at h
      obtain ⟨e1, e2, e3, _⟩ := h
      have hu := hb u (by simp)
      have hv := hb v (by simp)
      have q1 := b64Char_inj (by omega) (by omega) e1
      have q2 := b64Char_inj (by omega) (by omega) e2
      have q3 := b64Char_inj (by omega) (by omega) e3
      have hxy : x = u ∧ y = v := ⟨by omega, by omega⟩
      simp [hxy.1, hxy.2]
    | u :: v :: w :: s =>
      have hw := hb w (by simp)
      have hne := b64Char_ne_eq (w % 64) (by omega)
      simp [base64, hne, hne.symm] at h
  | case3 x =>
    intro b ha hb h
    have hx := ha x (by simp)
    match b with
    | [] => simp [base64] at h
    | [u] =>
      simp only [base64, List.cons.injEq] at h
      obtain ⟨e1, e2, _⟩ := h
      have hu := hb u (by simp)
      have q1 := b64Char_inj (by omega) (by omega) e1
      have q2 := b64Char_inj (by omega) (by omega) e2
      have hxu : x = u := by omega
      simp [hxu]
    | [u, v] =>
      have hv := hb v (by simp)
      have hne := b64Char_ne_eq (v % 16 * 4) (by omega)
      simp [base64, hne, hne.symm] at h
    | u :: v :: w :: s =>
      have hw := hb w (by simp)
      have hne := b64Char_ne_eq (v % 16 * 4 + w / 64) (by omega)
      simp [base64, hne, hne.symm] at h
  | case4 =>
    intro b ha hb h
    match b with
    | [] => rfl
    | [u] => simp [base64] at h
    | [u, v] => simp [base64] at h
    | u :: v :: w :: s => simp [base64] at h

inductive Metric | commits | linesChanged | added | deleted
deriving DecidableEq

def Metric.str : Metric → String
  | .commits => "commits"
  | .linesChanged => "linesChanged"
  | .added => "added"
  | .deleted => "deleted"

inductive DateSource | committer | author
deriving DecidableEq

def DateSource.str : DateSource → String
  | .committer => "committer"
  | .author => "author"

structure HeatmapOptions where
  rangeStart : Int
  rangeEnd : Int
  metric : Metric
  colorScheme : String
  includeMerges : Bool
  dateSource : DateSource
  filterByAuthor : Bool
  authorEmail : Option String := none
  authorName : Option String := none
deriving DecidableEq

def boolChars : Bool → List Char
  | true => "true".toList
  | false => "false".toList

def jsonKeyChars (o : HeatmapOptions) : List Char :=
  "\x7b\"rangeStart\":\"".toList
    ++ (escStr (toISOString o.rangeStart).data
    ++ ('"' :: (",\"rangeEnd\":\"".toList
    ++ (escStr (toISOString o.rangeEnd).data
    ++ ('"' :: (",\"metric\":\"".toList
    ++ (escStr o.metric.str.data
    ++ ('"' :: (",\"colorScheme\":\"".toList
    ++ (escStr o.colorScheme.data
    ++ ('"' :: (",\"includeMerges\":".toList
    ++ (boolChars o.includeMerges
    ++ (",\"dateSource\":\"".toList
    ++ (escStr o.dateSource.str.data
    ++ ('"' :: (",\"filterByAuthor\":".toList
    ++ (boolChars o.filterByAuthor
    ++ "\x7d".toList))))))))))))))))))

def generateCacheKey (o : HeatmapOptions) : String :=
  "heatmap_" ++ ⟨base64 (utf8Bytes (jsonKeyChars o))⟩

theorem metricStr_inj (a b : Metric) (h : a.str = b.str) : a = b := by
  cases a <;> cases b <;> first | rfl | (exact absurd h (by decide))

theorem dateSourceStr_inj (a b : DateSource) (h : a.str = b.str) : a = b := by
  cases a <;> cases b <;> first | rfl | (exact absurd h (by decide))

theorem boolChars_inj (a b : Bool) (r s : List Char)
    (h : boolChars a ++ r = boolChars b ++ s) : a = b ∧ r = s := by
  cases a <;> cases b <;> simp_all [boolChars]

theorem esc_block_inj (a b ra rb : List Char)
    (h : escStr a ++ '"' :: ra = escStr b ++ '"' :: rb) : a = b ∧ ra = rb := by
  have h1 := decodeEsc_esc a ra
  have h2 := decodeEsc_esc b rb
  rw [h] at h1
  rw [h1] at h2
  obtain ⟨p1, p2⟩ := Prod.mk.injEq .. ▸ (Option.some.injEq _ _ ▸ h2)
  exact ⟨p1, p2⟩

theorem jsonKeyChars_inj (o1 o2 : HeatmapOptions)
    (h1 : 0 ≤ o1.rangeStart) (h2 : o1.rangeStart < 253402300800000)
    (h3 : 0 ≤ o1.rangeEnd) (h4 : o1.rangeEnd < 253402300800000)
    (h5 : 0 ≤ o2.rangeStart) (h6 : o2.rangeStart < 253402300800000)
    (h7 : 0 ≤ o2.rangeEnd) (h8 : o2.rangeEnd < 253402300800000)
    (h : jsonKeyChars o1 = jsonKeyChars o2) :
    o1.rangeStart = o2.rangeStart ∧ o1.rangeEnd = o2.rangeEnd ∧
    o1.metric = o2.metric ∧ o1.colorScheme = o2.colorScheme ∧
    o1.includeMerges = o2.includeMerges ∧ o1.dateSource = o2.dateSource ∧
    o1.filterByAuthor = o2.filterByAuthor := by
  unfold jsonKeyChars at h
  replace h := List.append_cancel_left h
  obtain ⟨e1, h⟩ := esc_block_inj _ _ _ _ h
  replace h := List.append_cancel_left h
  obtain ⟨e2, h⟩ := esc_block_inj _ _ _ _ h
  replace h := List.append_cancel_left h
  obtain ⟨e3, h⟩ := esc_block_inj _ _ _ _ h
  replace h := List.append_cancel_left h
  obtain ⟨e4, h⟩ := esc_block_inj _ _ _ _ h
  replace h := List.append_cancel_left h
  obtain ⟨e5, h⟩ := boolChars_inj _ _ _ _ h
  replace h := List.append_cancel_left h
  obtain ⟨e6, h⟩ := esc_block_inj _ _ _ _ h
  replace h := List.append_cancel_left h
  obtain ⟨e7, _⟩ := boolChars_inj _ _ _ _ h
  refine ⟨?_, ?_, ?_, ?_, e5, ?_, e7⟩
  · exact toISOString_inj _ _ h1 h2 h5 h6 (congrArg String.mk e1)
  · exact toISOString_inj _ _ h3 h4 h7 h8 (congrArg String.mk e2)
  · exact metricStr_inj _ _ (congrArg String.mk e3)
  · exact String.ext e4
  · exact dateSourceStr_inj _ _ (congrArg String.mk e6)

theorem generateCacheKey_inj (o1 o2 : HeatmapOptions)
    (h1 : 0 ≤ o1.rangeStart) (h2 : o1.rangeStart < 253402300800000)
    (h3 : 0 ≤ o1.rangeEnd) (h4 : o1.rangeEnd < 253402300800000)
    (h5 : 0 ≤ o2.rangeStart) (h6 : o2.rangeStart < 253402300800000)
    (h7 : 0 ≤ o2.rangeEnd) (h8 : o2.rangeEnd < 253402300800000)
    (h : generateCacheKey o1 = generateCacheKey o2) :
    o1.rangeStart = o2.rangeStart ∧ o1.rangeEnd = o2.rangeEnd ∧
    o1.metric = o2.metric ∧ o1.colorScheme = o2.colorScheme ∧
    o1.includeMerges = o2.includeMerges ∧ o1.dateSource = o2.dateSource ∧
    o1.filterByAuthor = o2.filterByAuthor := by
  unfold generateCacheKey at h
  replace h := congrArg String.data h
  simp only [String.data_append] at h
  replace h := List.append_cancel_left h
  replace h := base64_inj _ _ (utf8Bytes_lt _) (utf8Bytes_lt _) h
  replace h := utf8Bytes_inj _ _ h
  exact jsonKeyChars_inj o1 o2 h1 h2 h3 h4 h5 h6 h7 h8 h

def digitVal (c : Char) : Option Nat :=
  if 48 ≤ c.toNat ∧ c.toNat ≤ 57 then some (c.toNat - 48) else none

def twoDigits (a b : Char) : Option Nat := do
  let x ← digitVal a
  let y ← digitVal b
  pure (10 * x + y)

def parseJsDate (s : String) : Option Int :=
  match s.data with
  | y1 :: y2 :: y3 :: y4 :: '-' :: m1 :: m2 :: '-' :: d1 :: d2 :: 'T' ::
      h1 :: h2 :: ':' :: mi1 :: mi2 :: ':' :: s1 :: s2 :: offs => do
    let yh ← twoDigits y1 y2
    let yl ← twoDigits y3 y4
    let m ← twoDigits m1 m2
    let d ← twoDigits d1 d2
    let hh ← twoDigits h1 h2
    let mi ← twoDigits mi1 mi2
    let ss ← twoDigits s1 s2
    let offMinutes : Option Int ←
      match offs with
      | ['Z'] => pure (some 0)
      | '+' :: o1 :: o2 :: ':' :: o3 :: o4 :: [] => do
        let oh ← twoDigits o1 o2
        let om ← twoDigits o3 o4
        pure (some ((oh : Int) * 60 + om))
      | '-' :: o1 :: o2 :: ':' :: o3 :: o4 :: [] => do
        let oh ← twoDigits o1 o2
        let om ← twoDigits o3 o4
        pure (some (-((oh : Int) * 60 + om)))
      | _ => pure none
    let off ← offMinutes
    let y := 100 * yh + yl
    if 1 ≤ m ∧ m ≤ 12 ∧ 1 ≤ d ∧ d ≤ 31 ∧ hh ≤ 23 ∧ mi ≤ 59 ∧ ss ≤ 59 then
      let day := daysFromCivil y m d
      if civilFromDays day = ((y : Int), (m : Int), (d : Int)) then
        pure (day * 86400000 + ((hh : Int) * 3600000 + (mi : Int) * 60000 + (ss : Int) * 1000)
          - off * 60000)
      else none
    else none
  | _ => none


def isoDayString (t : Int) : String := ⟨(toISOString t).data.takeWhile (fun c => c ≠ 'T')⟩

structure GitUser where
  email : String
  name : String

structure CommitInfo where
  hash : String
  message : String
  author : String
  date : String
  repository : String
deriving DecidableEq

inductive ExecError | failed
deriving DecidableEq

structure RepoEnv where
  exec : String → String → Except ExecError String

def resolveAuthorFilter (options : HeatmapOptions) (gitUser : GitUser) : Option String :=
  if options.filterByAuthor then
    match options.authorEmail with
    | some e => if e ≠ "" then some e else
        if gitUser.email ≠ "" then some gitUser.email
        else if gitUser.name ≠ "" then some gitUser.name
        else none
    | none =>
        if gitUser.email ≠ "" then some gitUser.email
        else if gitUser.name ≠ "" then some gitUser.name
        else none
  else none

def buildGitLogCommand (options : HeatmapOptions) (gitUser : GitUser) : String :=
  let dateFormat := if options.dateSource = .author then "%ad" else "%cd"
  let authorFilter := resolveAuthorFilter options gitUser
  let since := isoDayString options.rangeStart
  let untilStr := isoDayString (options.rangeEnd + 86400000)
  let parts : List (Option String) :=
    [some "git log",
     some ("--since=\"" ++ since ++ "\""),
     some ("--until=\"" ++ untilStr ++ "\""),
     (if options.includeMerges then none else some "--no-merges"),
     authorFilter.map (fun a => "--author=\"" ++ a ++ "\""),
     some ("--pretty=format:\"%H|%an|" ++ dateFormat ++ "|%s\""),
     some "--date=iso-strict-local"]
  String.intercalate " " (parts.filterMap id)

def jsTrimChars : List Char → List Char :=
  fun l => (l.dropWhile Char.isWhitespace).reverse.dropWhile Char.isWhitespace |>.reverse

def jsTrim (s : String) : String := ⟨jsTrimChars s.data⟩

def splitOnCharList (sep : Char) : List Char → List (List Char)
  | [] => [[]]
  | c :: rest =>
    let r := splitOnCharList sep rest
    if c = sep then [] :: r else (c :: r.headD []) :: r.tail

def jsSplitChar (sep : Char) (s : String) : List String :=
  (splitOnCharList sep s.data).map (fun l => ⟨l⟩)

def jsJoinChar (sep : Char) : List String → String
  | [] => ""
  | [x] => x
  | x :: rest => x ++ ⟨[sep]⟩ ++ jsJoinChar sep rest

def jsBasename (p : String) : String :=
  (jsSplitChar '/' p).getLastD p

def parseCommitLine (repoPath : String) (line : String) : Option CommitInfo :=
  match jsSplitChar '|' line with
  | hash :: author :: date :: m1 :: rest =>
    some { hash := jsTrim hash, author := jsTrim author, date := jsTrim date,
           message := jsTrim (jsJoinChar '|' (m1 :: rest)),
           repository := jsBasename repoPath }
  | _ => none

def parseCommitLines (stdout repoPath : String) : List CommitInfo :=
  ((jsSplitChar '\x0a' (jsTrim stdout)).filter (fun l => jsTrim l ≠ "")).filterMap
    (parseCommitLine repoPath)

def getCommitsForRepository (env : RepoEnv) (repoPath : String)
    (options : HeatmapOptions) (gitUser : GitUser) : List CommitInfo :=
  match env.exec repoPath (buildGitLogCommand options gitUser) with
  | .error _ => []
  | .ok stdout => parseCommitLines stdout repoPath

def mapSet (m : List (String × Nat)) (k : String) (v : Nat) : List (String × Nat) :=
  if m.any (fun p => p.1 = k) then
    m.map (fun p => if p.1 = k then (k, v) else p)
  else m ++ [(k, v)]

structure AggState where
  dayMap : List (String × Nat)
  details : List CommitInfo
  errors : Nat

def processCommits : AggState → List CommitInfo → AggState
  | st, [] => st
  | st, c :: rest =>
    match parseJsDate c.date with
    | some t =>
      let dateStr := isoDayString t
      let current := (List.lookup dateStr st.dayMap).getD 0
      processCommits
        { st with dayMap := mapSet st.dayMap dateStr (current + 1),
                  details := st.details ++ [c] } rest
    | none => { st with errors := st.errors + 1 }

structure HeatmapCell where
  date : String
  commits : Nat
deriving DecidableEq

structure Summary where
  repositories : Nat
  totalCommits : Nat
  rangeStart : String
  rangeEnd : String
  metric : String
  colorScheme : String
deriving DecidableEq

structure HeatmapDataset where
  cells : List HeatmapCell
  allCommits : List CommitInfo
  summary : Summary
deriving DecidableEq

def buildCells (m : List (String × Nat)) (current endT : Int) : List HeatmapCell :=
  if h : current ≤ endT then
    { date := isoDayString current,
      commits := (List.lookup (isoDayString current) m).getD 0 }
      :: buildCells m (current + 86400000) endT
  else []
termination_by (endT + 86400000 - current).toNat
decreasing_by
  omega

def charListLe : List Char → List Char → Bool
  | [], _ => true
  | _ :: _, [] => false
  | a :: as, b :: bs =>
    if a.toNat < b.toNat then true
    else if b.toNat < a.toNat then false
    else charListLe as bs

def jsStrLe (a b : String) : Bool := charListLe a.data b.data

theorem charListLe_total (a b : List Char) :
    charListLe a b = true ∨ charListLe b a = true := by
  induction a generalizing b with
  | nil => left; rfl
  | cons x xs ih =>
    cases b with
    | nil => right; rfl
    | cons y ys =>
      by_cases h1 : x.toNat < y.toNat
      · left; simp [charListLe, h1]
      · by_cases h2 : y.toNat < x.toNat
        · right; simp [charListLe, h2]
        · rcases ih ys with h | h <;> [left; right] <;>
            simp [charListLe, h1, h2, h]

theorem charListLe_trans {a b c : List Char}
    (h1 : charListLe a b = true) (h2 : charListLe b c = true) :
    charListLe a c = true := by
  induction a generalizing b c with
  | nil => rfl
  | cons x xs ih =>
    cases b with
    | nil => simp [charListLe] at h1
    | cons y ys =>
      cases c with
      | nil => simp [charListLe] at h2
      | cons z zs =>
        simp only [charListLe] at h1 h2 ⊢
        by_cases hxy : x.toNat < y.toNat <;> by_cases hyz : y.toNat < z.toNat <;>
          by_cases hxz : x.toNat < z.toNat <;>
          simp [hxy, hyz, hxz] at h1 h2 ⊢ <;>
          first
          | omega
          | exact ih h1 h2
          | exact ⟨by omega, ih h1.2 h2.2⟩

def sortCommitsDesc (l : List CommitInfo) : List CommitInfo :=
  List.insertionSort (fun a b => jsStrLe b.date a.date = true) l

def createEmptyDataset (options : HeatmapOptions) : HeatmapDataset :=
  { cells := [],
    allCommits := [],
    summary := { repositories := 0, totalCommits := 0,
                 rangeStart := isoDayString options.rangeStart,
                 rangeEnd := isoDayString options.rangeEnd,
                 metric := options.metric.str,
                 colorScheme := options.colorScheme } }

def computeHeatmapData (options : HeatmapOptions) (repositories : List String)
    (gitUser : GitUser) (env : RepoEnv) : HeatmapDataset × Nat :=
  if repositories = [] then (createEmptyDataset options, 0)
  else
    let st := repositories.foldl
      (fun st repo => processCommits st (getCommitsForRepository env repo options gitUser))
      ⟨[], [], 0⟩
    let cells := buildCells st.dayMap options.rangeStart options.rangeEnd
    ({ cells,
       allCommits := sortCommitsDesc st.details,
       summary := { repositories := repositories.length,
                    totalCommits := cells.foldl (fun acc c => acc + c.commits) 0,
                    rangeStart := isoDayString options.rangeStart,
                    rangeEnd := isoDayString options.rangeEnd,
                    metric := options.metric.str,
                    colorScheme := options.colorScheme } },
     st.errors)

def warningShown (errorCount : Nat) : Bool := decide (0 < errorCount)

inductive DiscoverError | toolUnavailable
deriving DecidableEq

structure DiscoverEnv where
  workspaceFolders : Option (List String)
  gitAvailable : Bool
  isGitRepo : String → Bool
  findOutput : String → Except ExecError String

def jsReplaceFirst (s pat rep : String) : String :=
  match s.splitOn pat with
  | [] => s
  | [_] => s
  | a :: rest => a ++ rep ++ String.intercalate pat rest

def pathJoin (root p : String) : String :=
  if p = "." then root
  else if p.startsWith "./" then root ++ "/" ++ (p.drop 2)
  else root ++ "/" ++ p

def findNestedGitRepositories (env : DiscoverEnv) (rootPath : String) : List String :=
  match env.findOutput rootPath with
  | .error _ => []
  | .ok stdout =>
    ((stdout.trim.splitOn "\n").filter (fun l => l.trim ≠ "")).map
      (fun gitDir => pathJoin rootPath (jsReplaceFirst gitDir "/.git" ""))

def jsDedupFirst (l : List String) : List String :=
  l.foldl (fun acc x => if acc.contains x then acc else acc ++ [x]) []

def discoverRepositories (env : DiscoverEnv) : Except DiscoverError (List String) :=
  match env.workspaceFolders with
  | none => .ok []
  | some folders =>
    if env.gitAvailable then
      .ok (jsDedupFirst (folders.foldl
        (fun acc folder =>
          acc ++ (if env.isGitRepo folder then [folder] else [])
            ++ ((findNestedGitRepositories env folder).filter (fun r => r ≠ folder)))
        []))
    else .error .toolUnavailable

def CACHE_DURATION : Int := 5 * 60 * 1000

structure CacheEntry where
  data : HeatmapDataset
  timestamp : Int

def getCachedData (cache : List (String × CacheEntry)) (cacheKey : String) (now : Int) :
    Option HeatmapDataset × List (String × CacheEntry) :=
  match List.lookup cacheKey cache with
  | none => (none, cache)
  | some cached =>
    if now - cached.timestamp > CACHE_DURATION then
      (none, cache.filter (fun p => p.1 ≠ cacheKey))
    else (some cached.data, cache)

inductive TimeRange | year | halfYear | quarter | month | custom
deriving DecidableEq

inductive UserFilter | current | all | custom
deriving DecidableEq

structure HeatmapFilterOptions where
  timeRange : TimeRange
  customStartDate : Option Int := none
  customEndDate : Option Int := none
  userFilter : UserFilter
  customUser : Option String := none
  includeMerges : Bool
  dateSource : DateSource
  colorScheme : String
  metric : Metric
deriving DecidableEq

def convertFiltersToOptions (filters : HeatmapFilterOptions) (now : Int) : HeatmapOptions :=
  let rangeEnd := now
  let range : Int × Int :=
    match filters.timeRange with
    | .year => (rangeEnd - 365 * 86400000, rangeEnd)
    | .halfYear => (rangeEnd - 180 * 86400000, rangeEnd)
    | .quarter => (rangeEnd - 90 * 86400000, rangeEnd)
    | .month => (rangeEnd - 30 * 86400000, rangeEnd)
    | .custom =>
      (match filters.customStartDate with
       | some s => s
       | none => rangeEnd,
       match filters.customEndDate with
       | some e => e
       | none => rangeEnd)
  { rangeStart := range.1,
    rangeEnd := range.2,
    metric := filters.metric,
    colorScheme := filters.colorScheme,
    includeMerges := filters.includeMerges,
    dateSource := filters.dateSource,
    filterByAuthor := filters.userFilter ≠ .all,
    authorEmail := if filters.userFilter = .custom then filters.customUser else none,
    authorName := none }

def daysBack : TimeRange → Option Int
  | .year => some 365
  | .halfYear => some 180
  | .quarter => some 90
  | .month => some 30
  | .custom => none

def translateSpec (f : HeatmapFilterOptions) (now : Int) : HeatmapOptions :=
  { rangeStart :=
      match daysBack f.timeRange with
      | some n => now - n * 86400000
      | none => f.customStartDate.getD now,
    rangeEnd :=
      match daysBack f.timeRange with
      | some _ => now
      | none => f.customEndDate.getD now,
    metric := f.metric,
    colorScheme := f.colorScheme,
    includeMerges := f.includeMerges,
    dateSource := f.dateSource,
    filterByAuthor := f.userFilter ≠ .all,
    authorEmail := if f.userFilter = .custom then f.customUser else none,
    authorName := none }

/-- Claim C7: the translation from a Filter Selection to Query Options is a
pure function of the selection and the single clock value read at entry
(embedded as the parameter now): it coincides with the spec-side translate
function, hence two calls with the same selection and the same now yield
identical Query Options in every field. -/
theorem convertFilters_eq_translateSpec (f : HeatmapFilterOptions) (now : Int) :
    convertFiltersToOptions f now = translateSpec f now := by
  cases htr : f.timeRange <;>
    simp [convertFiltersToOptions, translateSpec, daysBack, htr] <;>
    constructor <;> cases f.customStartDate <;> cases f.customEndDate <;>
    simp [Option.getD]

theorem buildCells_length (m : List (String × Nat)) (s e : Int) :
    (buildCells m s e).length =
      if s ≤ e then (e - s).toNat / 86400000 + 1 else 0 := by
  refine buildCells.induct m
    (fun s e => (buildCells m s e).length =
      if s ≤ e then (e - s).toNat / 86400000 + 1 else 0) ?_ ?_ s e
  · intro s e h ih
    rw [buildCells, dif_pos h, if_pos h]
    by_cases h2 : s + 86400000 ≤ e
    · rw [if_pos h2] at ih
      simp only [List.length_cons, ih]
      omega
    · rw [if_neg h2] at ih
      simp only [List.length_cons, ih]
      omega
  · intro s e h
    rw [buildCells, dif_neg h, if_neg h]
    rfl

theorem foldl_commits (l : List HeatmapCell) (a : Nat) :
    l.foldl (fun acc c => acc + c.commits) a = a + (l.map (fun c => c.commits)).sum := by
  induction l generalizing a with
  | nil => simp
  | cons c cs ih => simp [ih]; omega

/-- Claim C5: in every dataset computed by getHeatmapData,
summary.totalCommits equals the sum of the commit counts of the materialised
cells, including for the empty dataset. -/
theorem totalCommits_eq_sum (options : HeatmapOptions) (repositories : List String)
    (gitUser : GitUser) (env : RepoEnv) :
    (computeHeatmapData options repositories gitUser env).1.summary.totalCommits
      = (((computeHeatmapData options repositories gitUser env).1.cells.map
          (fun c => c.commits)).sum) := by
  unfold computeHeatmapData
  by_cases h : repositories = []
  · rw [if_pos h]
    simp [createEmptyDataset]
  · rw [if_neg h]
    simp only
    rw [foldl_commits]
    omega

def inclusiveDayCount (s e : Int) : Nat :=
  (e / 86400000 - s / 86400000).toNat + 1

def emptyEnv : RepoEnv := ⟨fun _ _ => Except.error .failed⟩

def baseOptions : HeatmapOptions :=
  { rangeStart := 0, rangeEnd := 0, metric := .commits, colorScheme := "github",
    includeMerges := false, dateSource := .committer, filterByAuthor := false }

/-- Claim C1, counterexample: with zero discovered repositories and the valid
range [0, 0] (one calendar day inclusive), getHeatmapData returns the empty
dataset with no cells at all, so cells.length differs from the inclusive day
count of the range. -/
theorem cells_empty_when_no_repos :
    (computeHeatmapData baseOptions [] ⟨"", ""⟩ emptyEnv).1.cells.length = 0 ∧
    inclusiveDayCount baseOptions.rangeStart baseOptions.rangeEnd = 1 := by
  exact ⟨rfl, rfl⟩

/-- Claim C1, amended: when at least one repository is discovered and
rangeStart is at most rangeEnd, the dataset has exactly
floor((rangeEnd - rangeStart) / 86400000) + 1 cells, one per day stepped from
rangeStart (this equals the inclusive day count of the range whenever the two
bounds carry the same time of day); when zero repositories are discovered the
dataset is empty and has no cells. -/
theorem cells_dense_length (options : HeatmapOptions) (repositories : List String)
    (gitUser : GitUser) (env : RepoEnv) (h : options.rangeStart ≤ options.rangeEnd) :
    (computeHeatmapData options repositories gitUser env).1.cells.length =
      if repositories = [] then 0
      else (options.rangeEnd - options.rangeStart).toNat / 86400000 + 1 := by
  unfold computeHeatmapData
  by_cases hr : repositories = []
  · rw [if_pos hr, if_pos hr]
    rfl
  · rw [if_neg hr, if_neg hr]
    simp only
    rw [buildCells_length, if_pos h]

/-- Claim C1, witness for the amended theorem at a concrete input. -/
theorem cells_dense_length_witness :
    (computeHeatmapData baseOptions ["r"] ⟨"", ""⟩ emptyEnv).1.cells.length = 1 := by
  have := cells_dense_length baseOptions ["r"] ⟨"", ""⟩ emptyEnv (by decide)
  simp at this
  exact this

def localDayOfIsoLocal (s : String) : String := ⟨s.data.take 10⟩

def bucketDayKey (dateStr : String) : Option String :=
  (parseJsDate dateStr).map isoDayString

/-- Claim C3: the aggregation step buckets each commit by the UTC calendar
day of its timestamp, not by its local calendar day.  For the commit date
string 2024-01-02T00:30:00+08:00 (local day January 2) the source computes
new Date(d).toISOString().split at T, which yields the UTC day January 1, and
the day bucket map records that UTC day. -/
theorem bucket_is_utc_day_not_local :
    bucketDayKey "2024-01-02T00:30:00+08:00" = some "2024-01-01" ∧
    localDayOfIsoLocal "2024-01-02T00:30:00+08:00" = "2024-01-02" ∧
    (processCommits ⟨[], [], 0⟩
      [{ hash := "h", message := "m", author := "a",
         date := "2024-01-02T00:30:00+08:00", repository := "r" }]).dayMap
      = [("2024-01-01", 1)] := by
  refine ⟨by decide, by decide, by decide⟩

def failEnv : RepoEnv := ⟨fun _ _ => Except.error .failed⟩

theorem fold_fail (options : HeatmapOptions) (gitUser : GitUser)
    (repos : List String) (st : AggState) :
    repos.foldl
      (fun st repo => processCommits st (getCommitsForRepository failEnv repo options gitUser))
      st = st := by
  induction repos generalizing st with
  | nil => rfl
  | cons r rs ih =>
    simp only [List.foldl_cons]
    rw [show getCommitsForRepository failEnv r options gitUser = [] from rfl]
    exact ih st

/-- Claim C4: when every git invocation fails (tool error, timeout,
non-repository), getCommitsForRepository catches the failure internally and
returns the empty commit list, so the error counter of the caller stays zero
and the partial-data warning is never shown, for any repository list. -/
theorem exec_failure_no_warning (options : HeatmapOptions) (repos : List String)
    (gitUser : GitUser) :
    (computeHeatmapData options repos gitUser failEnv).2 = 0 ∧
    warningShown (computeHeatmapData options repos gitUser failEnv).2 = false ∧
    (computeHeatmapData options repos gitUser failEnv).1.allCommits = [] := by
  unfold computeHeatmapData
  by_cases h : repos = []
  · rw [if_pos h]
    exact ⟨rfl, rfl, rfl⟩
  · rw [if_neg h]
    refine ⟨?_, ?_, ?_⟩ <;> simp only [fold_fail] <;> rfl

def effectiveAuthorSpec (o : HeatmapOptions) (g : GitUser) : Option String :=
  if o.filterByAuthor then
    ([o.authorEmail, some g.email, some g.name].filterMap id).find? (fun s => s ≠ "")
  else none

/-- Claim C6: the effective author filter equals the spec-side priority
resolution: when filterByAuthor is set, the first non-empty entry of
[custom author string, configured email, configured name], and no filter
(none) when all are empty or filterByAuthor is unset.  An empty string
counts as absent, matching the JavaScript truthiness test in the source. -/
theorem authorFilter_priority (o : HeatmapOptions) (g : GitUser) :
    resolveAuthorFilter o g = effectiveAuthorSpec o g := by
  unfold resolveAuthorFilter effectiveAuthorSpec
  by_cases hf : o.filterByAuthor
  · rw [if_pos hf, if_pos hf]
    cases hae : o.authorEmail with
    | none =>
      simp only [List.filterMap]
      by_cases he : g.email ≠ "" <;> by_cases hn : g.name ≠ "" <;>
        simp [List.find?, he, hn]
    | some e =>
      simp only [List.filterMap]
      by_cases hee : e ≠ "" <;> by_cases he : g.email ≠ "" <;> by_cases hn : g.name ≠ "" <;>
        simp [List.find?, hee, he, hn]
  · rw [if_neg hf, if_neg hf]

def dateDesc (a b : CommitInfo) : Prop := jsStrLe b.date a.date = true

instance : DecidableRel dateDesc :=
  fun a b => inferInstanceAs (Decidable (jsStrLe b.date a.date = true))

instance : IsTotal CommitInfo dateDesc := ⟨fun a b => charListLe_total b.date.data a.date.data⟩

instance : IsTrans CommitInfo dateDesc := ⟨fun _ _ _ h1 h2 => charListLe_trans h2 h1⟩

/-- Claim C8, amended: in every computed dataset, allCommits is sorted in
descending lexicographic order of the raw date strings (the comparator of
the source is localeCompare on the strings): every adjacent pair satisfies
later.date at most earlier.date in code-point order. -/
theorem allCommits_sorted_desc (options : HeatmapOptions) (repositories : List String)
    (gitUser : GitUser) (env : RepoEnv) :
    List.Chain' dateDesc (computeHeatmapData options repositories gitUser env).1.allCommits := by
  unfold computeHeatmapData
  by_cases h : repositories = []
  · rw [if_pos h]
    exact List.chain'_nil
  · rw [if_neg h]
    simp only
    have hs : List.Sorted dateDesc (sortCommitsDesc
        (repositories.foldl (fun st repo =>
          processCommits st (getCommitsForRepository env repo options gitUser))
          ⟨[], [], 0⟩).details) := by
      unfold sortCommitsDesc
      exact List.sorted_insertionSort dateDesc _
    exact List.Pairwise.chain' hs

def mixedOffsetEnv : RepoEnv :=
  ⟨fun _ _ => Except.ok
    "h1|Alice|2024-01-02T10:30:00+08:00|m1\nh2|Bob|2024-01-02T09:00:00+00:00|m2"⟩

/-- Claim C8, counterexample: with two commits whose date strings carry
different UTC offsets, the string-descending order places first a commit
whose instant is strictly earlier than the instant of the commit after it,
so allCommits is not sorted by the instants the dates denote. -/
theorem allCommits_not_instant_sorted :
    ((computeHeatmapData baseOptions ["repo"] ⟨"", ""⟩ mixedOffsetEnv).1.allCommits.map
      (fun c => c.date))
      = ["2024-01-02T10:30:00+08:00", "2024-01-02T09:00:00+00:00"] ∧
    parseJsDate "2024-01-02T10:30:00+08:00" = some 1704162600000 ∧
    parseJsDate "2024-01-02T09:00:00+00:00" = some 1704186000000 ∧
    (1704162600000 : Int) < 1704186000000 := by
  refine ⟨by decide, by decide, by decide, by decide⟩

/-- Claim C9: for a stored cache entry, a get older than the fixed five
minute window (strictly more than 300000 ms before now) is a miss and
removes the entry, while a get within the window returns the stored dataset
unchanged and leaves the cache untouched. -/
theorem getCachedData_freshness (cache : List (String × CacheEntry)) (cacheKey : String)
    (now : Int) (entry : CacheEntry) (h : List.lookup cacheKey cache = some entry) :
    (now - entry.timestamp > 5 * 60 * 1000 →
      (getCachedData cache cacheKey now).1 = none ∧
      (getCachedData cache cacheKey now).2 = cache.filter (fun p => p.1 ≠ cacheKey)) ∧
    (now - entry.timestamp ≤ 5 * 60 * 1000 →
      (getCachedData cache cacheKey now).1 = some entry.data ∧
      (getCachedData cache cacheKey now).2 = cache) := by
  unfold getCachedData
  rw [h]
  dsimp only
  constructor
  · intro hstale
    rw [if_pos (by unfold CACHE_DURATION; omega)]
    exact ⟨rfl, rfl⟩
  · intro hfresh
    rw [if_neg (by unfold CACHE_DURATION; omega)]
    exact ⟨rfl, rfl⟩

def witnessEntry : CacheEntry := ⟨createEmptyDataset baseOptions, 0⟩

/-- Claim C9, witness at a concrete cache: age 300001 ms misses, age
300000 ms hits. -/
theorem getCachedData_freshness_witness :
    (getCachedData [("k", witnessEntry)] "k" 300001).1 = none ∧
    (getCachedData [("k", witnessEntry)] "k" 300000).1 = some witnessEntry.data := by
  constructor
  · exact ((getCachedData_freshness [("k", witnessEntry)] "k" 300001 witnessEntry rfl).1
      (by decide)).1
  · exact ((getCachedData_freshness [("k", witnessEntry)] "k" 300000 witnessEntry rfl).2
      (by decide)).1

/-- Claim C10, counterexample: when the host provides an empty array of
workspace roots (zero roots, but the list is present) and git is
unavailable, discoverRepositories raises ToolUnavailable even though no
workspace root exists. -/
theorem discover_empty_roots_counterexample :
    discoverRepositories
      ⟨some [], false, fun _ => false, fun _ => Except.error .failed⟩
      = Except.error .toolUnavailable := rfl

/-- Claim C10, amended: the early return guards on the absence of the
workspaceFolders value, not on it being non-empty: when it is undefined the
empty list is returned without the availability check, and whenever it is
present (even as an empty array) the availability check runs, raising
ToolUnavailable exactly when git is unavailable. -/
theorem discover_guard_on_absence (env : DiscoverEnv) :
    (env.workspaceFolders = none → discoverRepositories env = Except.ok []) ∧
    (∀ l, env.workspaceFolders = some l → env.gitAvailable = false →
      discoverRepositories env = Except.error .toolUnavailable) ∧
    (∀ l, env.workspaceFolders = some l → env.gitAvailable = true →
      ∃ repos, discoverRepositories env = Except.ok repos) := by
  refine ⟨?_, ?_, ?_⟩
  · intro h
    unfold discoverRepositories
    rw [h]
  · intro l hl hg
    unfold discoverRepositories
    rw [hl, hg]
    rfl
  · intro l hl hg
    unfold discoverRepositories
    rw [hl, hg]
    exact ⟨_, rfl⟩

/-- Claim C10, witness: with no workspaceFolders value and git unavailable,
discovery still succeeds with the empty list. -/
theorem discover_guard_witness :
    discoverRepositories ⟨none, false, fun _ => false, fun _ => Except.error .failed⟩
      = Except.ok [] :=
  (discover_guard_on_absence
    ⟨none, false, fun _ => false, fun _ => Except.error .failed⟩).1 rfl

def optionsWithEmailA : HeatmapOptions :=
  { rangeStart := 0, rangeEnd := 86400000, metric := .commits, colorScheme := "github",
    includeMerges := false, dateSource := .committer, filterByAuthor := true,
    authorEmail := some "alice@example.com", authorName := none }

def optionsWithEmailB : HeatmapOptions :=
  { optionsWithEmailA with authorEmail := some "bob@example.com" }

/-- Claim C2, counterexample: two option records that differ only in
authorEmail produce the same cache key, because generateCacheKey serialises
neither authorEmail nor authorName. -/
theorem cacheKey_ignores_author_fields_counterexample :
    generateCacheKey optionsWithEmailA = generateCacheKey optionsWithEmailB ∧
    optionsWithEmailA.authorEmail ≠ optionsWithEmailB.authorEmail := by
  exact ⟨rfl, by decide⟩

/-- Claim C2, amended: for options whose range bounds are representable
timestamps (years 1970 to 9999), two option records produce the same cache
key exactly when they agree on rangeStart, rangeEnd, metric, colorScheme,
includeMerges, dateSource and filterByAuthor; the author-filter fields
authorEmail and authorName do not enter the key. -/
theorem cacheKey_sensitivity (o1 o2 : HeatmapOptions)
    (h1 : 0 ≤ o1.rangeStart) (h2 : o1.rangeStart < 253402300800000)
    (h3 : 0 ≤ o1.rangeEnd) (h4 : o1.rangeEnd < 253402300800000)
    (h5 : 0 ≤ o2.rangeStart) (h6 : o2.rangeStart < 253402300800000)
    (h7 : 0 ≤ o2.rangeEnd) (h8 : o2.rangeEnd < 253402300800000) :
    generateCacheKey o1 = generateCacheKey o2 ↔
      (o1.rangeStart = o2.rangeStart ∧ o1.rangeEnd = o2.rangeEnd ∧
       o1.metric = o2.metric ∧ o1.colorScheme = o2.colorScheme ∧
       o1.includeMerges = o2.includeMerges ∧ o1.dateSource = o2.dateSource ∧
       o1.filterByAuthor = o2.filterByAuthor) := by
  constructor
  · exact generateCacheKey_inj o1 o2 h1 h2 h3 h4 h5 h6 h7 h8
  · rintro ⟨e1, e2, e3, e4, e5, e6, e7⟩
    unfold generateCacheKey jsonKeyChars
    rw [e1, e2, e3, e4, e5, e6, e7]

/-- Claim C2, witness: options differing only in includeMerges have distinct
cache keys, by the amended sensitivity theorem. -/
theorem cacheKey_sensitivity_witness :
    generateCacheKey optionsWithEmailA
      ≠ generateCacheKey { optionsWithEmailA with includeMerges := true } := by
  intro h
  have := (cacheKey_sensitivity optionsWithEmailA
      { optionsWithEmailA with includeMerges := true }
      (by decide) (by decide) (by decide) (by decide)
      (by decide) (by decide) (by decide) (by decide)).mp h
  exact absurd this.2.2.2.2.1 (by decide)

end GitHeatmap
